import Mathlib

/-!
Verification of the RazorForge numeric runtime core: the half-precision
(binary16) software float engine (`src/native/runtime/f16_functions.c`),
the decimal dispatch layer (`src/native/runtime/decimal_functions.c`), and
the placeholder decimal backend (`src/native/runtime/math_wrapper.c`).

Conventions of the shallow embedding:
* machine integers are `ℕ`; values are kept in range by explicit `% 2^w`
  exactly where the C unsigned arithmetic wraps;
* C `int32_t` intermediates that can go negative (the rebiased exponent)
  are `ℤ`;
* C functions that return `int32_t` 0/1 booleans are embedded as `Bool`;
* a float argument or result crosses the embedding as its IEEE bit
  pattern (the C code itself immediately reinterprets floats as
  `uint32_t` through a union and works on the bits);
* the real value denoted by a binary32 / binary16 bit pattern is given by
  the semantic functions `valueF32` / `valueF16 : ℕ → ℚ`;
* C undefined behaviour (integer division by zero) is `Option.none`.
-/

/-! ## F16Engine: conversions (f16_functions.c) -/

/-- Converts a binary32 bit pattern to a binary16 bit pattern with rounding;
embeds `rf_f16_from_f32` of `f16_functions.c` (the C function takes a `float`
and immediately reads its bits through a union). -/
def rf_f16_from_f32 (f32 : ℕ) : ℕ :=
  let sign := (f32 >>> 16) &&& 0x8000
  let exp : ℤ := (((f32 >>> 23) &&& 0xFF : ℕ) : ℤ) - 127 + 15
  let mant := (f32 >>> 13) &&& 0x3FF
  if f32 &&& 0x7FFFFFFF = 0 then sign
  else if exp ≤ 0 then
    if exp < -10 then sign
    else sign ||| ((mant ||| 0x0400) >>> (1 - exp).toNat)
  else if 31 ≤ exp then
    if 0x7F800000 < f32 &&& 0x7FFFFFFF then sign ||| 0x7E00 ||| (mant >>> 3)
    else sign ||| 0x7C00
  else
    let round_bit := (f32 >>> 12) &&& 1
    let sticky := f32 &&& 0x0FFF ≠ 0
    if round_bit = 1 ∧ (sticky ∨ mant &&& 1 = 1) then
      if 0x3FF < mant + 1 then
        if 31 ≤ exp + 1 then sign ||| 0x7C00
        else sign ||| ((exp + 1).toNat <<< 10)
      else sign ||| (exp.toNat <<< 10) ||| (mant + 1)
    else sign ||| (exp.toNat <<< 10) ||| mant

/-- Embeds the `while ((mant & 0x0400) == 0) { mant <<= 1; exp--; }`
normalization loop of `rf_f16_to_f32`.  The loop is given explicit fuel;
for the subnormal inputs it is reached with (mantissa in `[1, 0x3FF]`)
it exits within 10 iterations, so any fuel ≥ 10 reproduces the C loop. -/
def f16NormLoop : ℕ → ℕ → ℤ → ℕ × ℤ
  | 0, mant, exp => (mant, exp)
  | fuel + 1, mant, exp =>
    if mant &&& 0x0400 = 0 then f16NormLoop fuel (mant <<< 1) (exp - 1)
    else (mant, exp)

/-- Converts a binary16 bit pattern to a binary32 bit pattern; embeds
`rf_f16_to_f32` of `f16_functions.c`.  The C `uint32_t exp` is decremented
below zero inside the normalization loop and wraps modulo `2^32`; the
embedding tracks the mathematical value in `ℤ` and applies the wrap
(`% 2^32`) at the single point the value is reassembled into bits. -/
def rf_f16_to_f32 (x : ℕ) : ℕ :=
  let sign := (x &&& 0x8000) <<< 16
  let exp : ℤ := ((x &&& 0x7C00) >>> 10 : ℕ)
  let mant := x &&& 0x3FF
  if exp = 0 then
    if mant = 0 then sign
    else
      let p := f16NormLoop 32 mant exp
      let mant2 := p.1 &&& 0x3FF
      let exp2 := p.2 + 1
      sign ||| ((((exp2 - 15 + 127) % (2 ^ 32 : ℤ)).toNat <<< 23) &&& 0xFFFFFFFF) |||
        (mant2 <<< 13)
  else if exp = 31 then sign ||| 0x7F800000 ||| (mant <<< 13)
  else sign ||| ((exp - 15 + 127).toNat <<< 23) ||| (mant <<< 13)

/-! ## F16Engine: classification predicates (f16_functions.c) -/

/-- Embeds `rf_f16_isnan`: all exponent bits set and nonzero mantissa. -/
def rf_f16_isnan (x : ℕ) : Bool :=
  decide (x &&& 0x7C00 = 0x7C00) && decide (x &&& 0x3FF ≠ 0)

/-- Embeds `rf_f16_isinf`: the pattern with the sign bit cleared is `0x7C00`
(the C `~F16_SIGN_MASK` on a 16-bit value masks with `0x7FFF`). -/
def rf_f16_isinf (x : ℕ) : Bool :=
  decide (x &&& 0x7FFF = 0x7C00)

/-- Embeds `rf_f16_isfinite`: exponent field not all ones. -/
def rf_f16_isfinite (x : ℕ) : Bool :=
  decide (x &&& 0x7C00 ≠ 0x7C00)

/-- Embeds `rf_f16_isnormal`: exponent field strictly between 0 and 31. -/
def rf_f16_isnormal (x : ℕ) : Bool :=
  decide (0 < (x &&& 0x7C00) >>> 10) && decide ((x &&& 0x7C00) >>> 10 < 31)

/-- Embeds `rf_f16_iszero`: the pattern with the sign bit cleared is zero. -/
def rf_f16_iszero (x : ℕ) : Bool :=
  decide (x &&& 0x7FFF = 0)

/-- Embeds `rf_f16_signbit`: the sign bit is set. -/
def rf_f16_signbit (x : ℕ) : Bool :=
  decide (x &&& 0x8000 ≠ 0)

/-! ## F16Engine: special values (f16_functions.c) -/

/-- Embeds `rf_f16_nan`: the canonical quiet NaN `F16_QNAN`. -/
def rf_f16_nan : ℕ := 0x7E00

/-- Embeds `rf_f16_inf`: positive infinity `F16_INF`. -/
def rf_f16_inf : ℕ := 0x7C00

/-- Embeds `rf_f16_neg_inf`: negative infinity `F16_NEG_INF`. -/
def rf_f16_neg_inf : ℕ := 0xFC00

/-! ## Semantics of bit patterns (BitLayout)

The IEEE 754 real value denoted by a binary32 / binary16 bit pattern, as a
rational.  These are the specification-side semantic functions used to state
rounding correctness; they are defined only by the IEEE 754 encodings the
spec's BitLayout section describes (sign / biased exponent / mantissa). -/

/-- Denotes the value of a finite binary32 bit pattern: sign bit 31, 8
exponent bits biased by 127, 23 mantissa bits.  Subnormals (exponent field 0)
denote `mantissa · 2⁻¹⁴⁹`; normals denote `(2²³ + mantissa) · 2^(e−150)`.
Infinity / NaN patterns (exponent field 255) are given by the same normal
formula but are never used at such patterns. -/
def valueF32 (w : ℕ) : ℚ :=
  let s : ℚ := if w / 2 ^ 31 % 2 = 1 then -1 else 1
  let e : ℕ := w / 2 ^ 23 % 2 ^ 8
  let m : ℕ := w % 2 ^ 23
  if e = 0 then s * m * (2 : ℚ) ^ (-149 : ℤ)
  else s * (2 ^ 23 + m) * (2 : ℚ) ^ ((e : ℤ) - 150)

/-- Denotes the value of a finite binary16 bit pattern: sign bit 15, 5
exponent bits biased by 15, 10 mantissa bits.  Subnormals denote
`mantissa · 2⁻²⁴`; normals denote `(2¹⁰ + mantissa) · 2^(e−25)`. -/
def valueF16 (h : ℕ) : ℚ :=
  let s : ℚ := if h / 2 ^ 15 % 2 = 1 then -1 else 1
  let e : ℕ := h / 2 ^ 10 % 2 ^ 5
  let m : ℕ := h % 2 ^ 10
  if e = 0 then s * m * (2 : ℚ) ^ (-24 : ℤ)
  else s * (2 ^ 10 + m) * (2 : ℚ) ^ ((e : ℤ) - 25)

/-- NaN test on a binary32 bit pattern (exponent field all ones, nonzero
mantissa); used to embed the C `float` comparison operators, which are
false whenever an operand is NaN. -/
def f32IsNaNPat (w : ℕ) : Bool :=
  decide (w &&& 0x7F800000 = 0x7F800000) && decide (w &&& 0x7FFFFF ≠ 0)

/-- Comparison key of a non-NaN binary32 bit pattern: finite patterns map to
their value, ±infinity to `±2^1000`, which lies outside the magnitude range
of every finite binary32 (all finite values have magnitude `< 2^128`), so
`<` on keys agrees with the IEEE ordered comparison of the denoted values. -/
def f32CmpKey (w : ℕ) : ℚ :=
  if w &&& 0x7FFFFFFF = 0x7F800000 then
    if w / 2 ^ 31 % 2 = 1 then -((2 : ℚ) ^ (1000 : ℕ)) else (2 : ℚ) ^ (1000 : ℕ)
  else valueF32 w

/-- Embeds the C `<` on two `float`s given as bit patterns: false if either
operand is NaN, otherwise the IEEE ordered comparison of the values. -/
def f32LtPat (a b : ℕ) : Bool :=
  !f32IsNaNPat a && !f32IsNaNPat b && decide (f32CmpKey a < f32CmpKey b)

/-- Embeds the C `<=` on two `float`s given as bit patterns. -/
def f32LePat (a b : ℕ) : Bool :=
  !f32IsNaNPat a && !f32IsNaNPat b && decide (f32CmpKey a ≤ f32CmpKey b)

/-! ## F16Engine: comparisons, min/max (f16_functions.c) -/

/-- Embeds `rf_f16_eq`: NaN compares unequal, +0 equals −0, otherwise
bit-pattern equality. -/
def rf_f16_eq (a b : ℕ) : Bool :=
  if rf_f16_isnan a || rf_f16_isnan b then false
  else if a &&& 0x7FFF = 0 ∧ b &&& 0x7FFF = 0 then true
  else decide (a = b)

/-- Embeds `rf_f16_ne` as the negation of `rf_f16_eq`. -/
def rf_f16_ne (a b : ℕ) : Bool :=
  !rf_f16_eq a b

/-- Embeds `rf_f16_lt`: false on NaN, otherwise promote both operands to
binary32 and compare with the C `float` `<`. -/
def rf_f16_lt (a b : ℕ) : Bool :=
  if rf_f16_isnan a || rf_f16_isnan b then false
  else f32LtPat (rf_f16_to_f32 a) (rf_f16_to_f32 b)

/-- Embeds `rf_f16_le`. -/
def rf_f16_le (a b : ℕ) : Bool :=
  if rf_f16_isnan a || rf_f16_isnan b then false
  else f32LePat (rf_f16_to_f32 a) (rf_f16_to_f32 b)

/-- Embeds `rf_f16_gt`. -/
def rf_f16_gt (a b : ℕ) : Bool :=
  if rf_f16_isnan a || rf_f16_isnan b then false
  else f32LtPat (rf_f16_to_f32 b) (rf_f16_to_f32 a)

/-- Embeds `rf_f16_ge`. -/
def rf_f16_ge (a b : ℕ) : Bool :=
  if rf_f16_isnan a || rf_f16_isnan b then false
  else f32LePat (rf_f16_to_f32 b) (rf_f16_to_f32 a)

/-- Embeds `rf_f16_min`: a NaN operand loses; otherwise the `rf_f16_lt`
comparison picks the result. -/
def rf_f16_min (x y : ℕ) : ℕ :=
  if rf_f16_isnan x then y
  else if rf_f16_isnan y then x
  else if rf_f16_lt x y then x else y

/-- Embeds `rf_f16_max`. -/
def rf_f16_max (x y : ℕ) : ℕ :=
  if rf_f16_isnan x then y
  else if rf_f16_isnan y then x
  else if rf_f16_gt x y then x else y

/-! ## DecimalDispatch, tier C (math_wrapper.c, `#ifndef HAVE_LIBDFP`)

The placeholder backend compiled when the decimal library is absent.  The C
code operates directly on the `uint32_t` / `uint64_t` bit patterns with
unsigned integer arithmetic; unsigned wrap-around is `% 2^w`, and the C
division, whose behaviour is undefined for a zero divisor (it traps on
mainstream targets), is embedded as an `Option` that is `none` there. -/

/-- Embeds the tier C placeholder `d32_add`: C unsigned 32-bit `a + b`. -/
def d32AddTierC (a b : ℕ) : ℕ := (a + b) % 2 ^ 32

/-- Embeds the tier C placeholder `d32_sub`: C unsigned 32-bit `a - b`
(wrap-around; for in-range operands this is `(a + 2^32 - b) % 2^32`). -/
def d32SubTierC (a b : ℕ) : ℕ := (a + (2 ^ 32 - b % 2 ^ 32)) % 2 ^ 32

/-- Embeds the tier C placeholder `d32_mul`: C unsigned 32-bit `a * b`. -/
def d32MulTierC (a b : ℕ) : ℕ := (a * b) % 2 ^ 32

/-- Embeds the tier C placeholder `d32_div`: C unsigned 32-bit `a / b`,
which is truncating integer division and has no defined result when
`b = 0` (C undefined behaviour, a hardware trap on x86). -/
def d32DivTierC (a b : ℕ) : Option ℕ := if b = 0 then none else some (a / b)

/-- Embeds the tier C placeholder `d64_add`. -/
def d64AddTierC (a b : ℕ) : ℕ := (a + b) % 2 ^ 64

/-- Embeds the tier C placeholder `d64_sub`. -/
def d64SubTierC (a b : ℕ) : ℕ := (a + (2 ^ 64 - b % 2 ^ 64)) % 2 ^ 64

/-- Embeds the tier C placeholder `d64_mul`. -/
def d64MulTierC (a b : ℕ) : ℕ := (a * b) % 2 ^ 64

/-- Embeds the tier C placeholder `d64_div`. -/
def d64DivTierC (a b : ℕ) : Option ℕ := if b = 0 then none else some (a / b)

/-- Embeds the two-word `d128_t { uint64_t low, high; }` value type. -/
structure D128 where
  low : ℕ
  high : ℕ
deriving DecidableEq, Repr

/-- Embeds the tier C placeholder `d128_add`: word-wise unsigned addition. -/
def d128AddTierC (a b : D128) : D128 :=
  ⟨(a.low + b.low) % 2 ^ 64, (a.high + b.high) % 2 ^ 64⟩

/-- Embeds the tier C placeholder `d128_sub`: word-wise unsigned subtraction. -/
def d128SubTierC (a b : D128) : D128 :=
  ⟨(a.low + (2 ^ 64 - b.low % 2 ^ 64)) % 2 ^ 64,
   (a.high + (2 ^ 64 - b.high % 2 ^ 64)) % 2 ^ 64⟩

/-- Embeds the tier C placeholder `d128_mul`: word-wise unsigned product. -/
def d128MulTierC (a b : D128) : D128 :=
  ⟨(a.low * b.low) % 2 ^ 64, (a.high * b.high) % 2 ^ 64⟩

/-- Embeds the tier C placeholder `d128_div`: word-wise unsigned quotient,
undefined (`none`) when either divisor word is zero. -/
def d128DivTierC (a b : D128) : Option D128 :=
  if b.low = 0 ∨ b.high = 0 then none
  else some ⟨a.low / b.low, a.high / b.high⟩

/-! ## DecimalDispatch, tier B (decimal_functions.c over the Intel BID library)

The Intel library sources are not part of this repository, so the `bid*`
functions the tier B code calls are modelled from the spec (IEEE 754-2008
decimal interchange formats in BID encoding, quiet comparisons, minNum /
maxNum semantics).  Each model carries a doc comment saying exactly what is
modelled. -/

/-- Modelled from the spec: Intel `bid32_isNaN`.  Missing from the
repository (the Intel decimal library is an external collaborator).  In the
IEEE 754-2008 BID32 encoding a NaN has the five bits after the sign all set
(`G0..G4 = 11111`). -/
def bid32IsNaN (x : ℕ) : Bool :=
  decide (x &&& 0x7C000000 = 0x7C000000)

/-- Modelled from the spec: Intel `bid32_isInf` (`G0..G4 = 11110`). -/
def bid32IsInf (x : ℕ) : Bool :=
  decide (x &&& 0x7C000000 = 0x78000000)

/-- Modelled from the spec: Intel `bid32_isFinite`. -/
def bid32IsFinite (x : ℕ) : Bool :=
  decide (x &&& 0x78000000 ≠ 0x78000000)

/-- Modelled from the spec: Intel `bid32_isSigned` (the sign bit). -/
def bid32IsSigned (x : ℕ) : Bool :=
  decide (x / 2 ^ 31 % 2 = 1)

/-- Modelled from the spec: Intel `bid32_nan("")`, the canonical positive
quiet NaN pattern. -/
def bid32NaN : ℕ := 0x7C000000

/-- Modelled from the spec: Intel `bid32_inf()`, positive infinity. -/
def bid32Inf : ℕ := 0x78000000

/-- Modelled from the spec: Intel `bid32_negate`, which flips the sign bit
(IEEE 754 negate is a sign-bit operation). -/
def bid32Negate (x : ℕ) : ℕ :=
  if x < 2 ^ 31 then x + 2 ^ 31 else x - 2 ^ 31

/-- Modelled from the spec: the value denoted by a finite BID32 pattern,
`±coefficient · 10^(exponent − 101)`; when the two bits after the sign are
`11` the exponent field sits at bits 21–28 and the coefficient has an
implicit `100` prefix, otherwise the exponent field sits at bits 23–30.
Non-canonical coefficients (≥ 10^7) denote zero. -/
def bid32ToQ (x : ℕ) : ℚ :=
  let s : ℚ := if x / 2 ^ 31 % 2 = 1 then -1 else 1
  let steer := x / 2 ^ 29 % 4
  let e : ℕ := if steer = 3 then x / 2 ^ 21 % 2 ^ 8 else x / 2 ^ 23 % 2 ^ 8
  let c : ℕ := if steer = 3 then 2 ^ 23 + x % 2 ^ 21 else x % 2 ^ 23
  if 10 ^ 7 ≤ c then 0 else s * c * (10 : ℚ) ^ ((e : ℤ) - 101)

/-- Modelled from the spec: Intel `bid32_minnum`, IEEE `minNum` semantics —
the non-NaN operand wins when exactly one operand is NaN, otherwise the
numerically smaller operand. -/
def bid32Minnum (x y : ℕ) : ℕ :=
  if bid32IsNaN x then y
  else if bid32IsNaN y then x
  else if bid32ToQ x ≤ bid32ToQ y then x else y

/-- Modelled from the spec: Intel `bid32_maxnum`, IEEE `maxNum` semantics. -/
def bid32Maxnum (x y : ℕ) : ℕ :=
  if bid32IsNaN x then y
  else if bid32IsNaN y then x
  else if bid32ToQ x < bid32ToQ y then y else x

/-- Modelled from the spec: Intel `bid64_isNaN`. -/
def bid64IsNaN (x : ℕ) : Bool :=
  decide (x &&& 0x7C00000000000000 = 0x7C00000000000000)

/-- Modelled from the spec: Intel `bid64_isInf`. -/
def bid64IsInf (x : ℕ) : Bool :=
  decide (x &&& 0x7C00000000000000 = 0x7800000000000000)

/-- Modelled from the spec: Intel `bid64_isSigned`. -/
def bid64IsSigned (x : ℕ) : Bool :=
  decide (x / 2 ^ 63 % 2 = 1)

/-- Modelled from the spec: Intel `bid64_nan("")`. -/
def bid64NaN : ℕ := 0x7C00000000000000

/-- Modelled from the spec: Intel `bid64_inf()`. -/
def bid64Inf : ℕ := 0x7800000000000000

/-- Modelled from the spec: Intel `bid64_negate` (sign-bit flip). -/
def bid64Negate (x : ℕ) : ℕ :=
  if x < 2 ^ 63 then x + 2 ^ 63 else x - 2 ^ 63

/-- Modelled from the spec: the value denoted by a finite BID64 pattern
(`±coefficient · 10^(exponent − 398)`, exponent field of 10 bits). -/
def bid64ToQ (x : ℕ) : ℚ :=
  let s : ℚ := if x / 2 ^ 63 % 2 = 1 then -1 else 1
  let steer := x / 2 ^ 61 % 4
  let e : ℕ := if steer = 3 then x / 2 ^ 51 % 2 ^ 10 else x / 2 ^ 53 % 2 ^ 10
  let c : ℕ := if steer = 3 then 2 ^ 53 + x % 2 ^ 51 else x % 2 ^ 53
  if 10 ^ 16 ≤ c then 0 else s * c * (10 : ℚ) ^ ((e : ℤ) - 398)

/-- Modelled from the spec: Intel `bid64_minnum`. -/
def bid64Minnum (x y : ℕ) : ℕ :=
  if bid64IsNaN x then y
  else if bid64IsNaN y then x
  else if bid64ToQ x ≤ bid64ToQ y then x else y

/-- Modelled from the spec: Intel `bid64_maxnum`. -/
def bid64Maxnum (x y : ℕ) : ℕ :=
  if bid64IsNaN x then y
  else if bid64IsNaN y then x
  else if bid64ToQ x < bid64ToQ y then y else x

/-- Modelled from the spec: Intel `bid128_isNaN` (decided by the high word;
the `d128_t` two-word layout puts bits [64,128) in `high`). -/
def bid128IsNaN (x : D128) : Bool :=
  decide (x.high &&& 0x7C00000000000000 = 0x7C00000000000000)

/-- Modelled from the spec: Intel `bid128_isInf`. -/
def bid128IsInf (x : D128) : Bool :=
  decide (x.high &&& 0x7C00000000000000 = 0x7800000000000000)

/-- Modelled from the spec: Intel `bid128_isSigned`. -/
def bid128IsSigned (x : D128) : Bool :=
  decide (x.high / 2 ^ 63 % 2 = 1)

/-- Modelled from the spec: Intel `bid128_nan("")`. -/
def bid128NaN : D128 := ⟨0, 0x7C00000000000000⟩

/-- Modelled from the spec: Intel `bid128_inf()`. -/
def bid128Inf : D128 := ⟨0, 0x7800000000000000⟩

/-- Modelled from the spec: Intel `bid128_negate` (sign-bit flip on the
high word). -/
def bid128Negate (x : D128) : D128 :=
  ⟨x.low, if x.high < 2 ^ 63 then x.high + 2 ^ 63 else x.high - 2 ^ 63⟩

/-- Modelled from the spec: the value denoted by a finite BID128 pattern
(`±coefficient · 10^(exponent − 6176)`, 14-bit exponent field in the high
word, 113-bit coefficient spanning both words). -/
def bid128ToQ (x : D128) : ℚ :=
  let s : ℚ := if x.high / 2 ^ 63 % 2 = 1 then -1 else 1
  let steer := x.high / 2 ^ 61 % 4
  let e : ℕ := if steer = 3 then x.high / 2 ^ 47 % 2 ^ 14 else x.high / 2 ^ 49 % 2 ^ 14
  let c : ℕ :=
    if steer = 3 then 2 ^ 113 + (x.high % 2 ^ 47) * 2 ^ 64 + x.low
    else (x.high % 2 ^ 49) * 2 ^ 64 + x.low
  if 10 ^ 34 ≤ c then 0 else s * c * (10 : ℚ) ^ ((e : ℤ) - 6176)

/-- Modelled from the spec: Intel `bid128_minnum`. -/
def bid128Minnum (x y : D128) : D128 :=
  if bid128IsNaN x then y
  else if bid128IsNaN y then x
  else if bid128ToQ x ≤ bid128ToQ y then x else y

/-- Modelled from the spec: Intel `bid128_maxnum`. -/
def bid128Maxnum (x y : D128) : D128 :=
  if bid128IsNaN x then y
  else if bid128IsNaN y then x
  else if bid128ToQ x < bid128ToQ y then y else x

/-! ## DecimalDispatch wrappers (decimal_functions.c)

The `rf_d*` functions of `decimal_functions.c` are one-line delegations to
the Intel library calls modelled above. -/

/-- Embeds `rf_d32_min`, which delegates to `bid32_minnum`. -/
def rf_d32_min (x y : ℕ) : ℕ := bid32Minnum x y

/-- Embeds `rf_d32_max`, which delegates to `bid32_maxnum`. -/
def rf_d32_max (x y : ℕ) : ℕ := bid32Maxnum x y

/-- Embeds `rf_d32_isnan`. -/
def rf_d32_isnan (x : ℕ) : Bool := bid32IsNaN x

/-- Embeds `rf_d32_isinf`. -/
def rf_d32_isinf (x : ℕ) : Bool := bid32IsInf x

/-- Embeds `rf_d32_signbit`. -/
def rf_d32_signbit (x : ℕ) : Bool := bid32IsSigned x

/-- Embeds `rf_d32_nan`, which delegates to `bid32_nan("")`. -/
def rf_d32_nan : ℕ := bid32NaN

/-- Embeds `rf_d32_inf`. -/
def rf_d32_inf : ℕ := bid32Inf

/-- Embeds `rf_d32_neg_inf`, which negates `bid32_inf()`. -/
def rf_d32_neg_inf : ℕ := bid32Negate bid32Inf

/-- Embeds `rf_d64_min`. -/
def rf_d64_min (x y : ℕ) : ℕ := bid64Minnum x y

/-- Embeds `rf_d64_max`. -/
def rf_d64_max (x y : ℕ) : ℕ := bid64Maxnum x y

/-- Embeds `rf_d64_isnan`. -/
def rf_d64_isnan (x : ℕ) : Bool := bid64IsNaN x

/-- Embeds `rf_d64_isinf`. -/
def rf_d64_isinf (x : ℕ) : Bool := bid64IsInf x

/-- Embeds `rf_d64_signbit`. -/
def rf_d64_signbit (x : ℕ) : Bool := bid64IsSigned x

/-- Embeds `rf_d64_nan`. -/
def rf_d64_nan : ℕ := bid64NaN

/-- Embeds `rf_d64_inf`. -/
def rf_d64_inf : ℕ := bid64Inf

/-- Embeds `rf_d64_neg_inf`. -/
def rf_d64_neg_inf : ℕ := bid64Negate bid64Inf

/-- Embeds `rf_d128_min`. -/
def rf_d128_min (x y : D128) : D128 := bid128Minnum x y

/-- Embeds `rf_d128_max`. -/
def rf_d128_max (x y : D128) : D128 := bid128Maxnum x y

/-- Embeds `rf_d128_isnan`. -/
def rf_d128_isnan (x : D128) : Bool := bid128IsNaN x

/-- Embeds `rf_d128_isinf`. -/
def rf_d128_isinf (x : D128) : Bool := bid128IsInf x

/-- Embeds `rf_d128_signbit`. -/
def rf_d128_signbit (x : D128) : Bool := bid128IsSigned x

/-- Embeds `rf_d128_nan`. -/
def rf_d128_nan : D128 := bid128NaN

/-- Embeds `rf_d128_inf`. -/
def rf_d128_inf : D128 := bid128Inf

/-- Embeds `rf_d128_neg_inf`. -/
def rf_d128_neg_inf : D128 := bid128Negate bid128Inf

/-! ## Bit-arithmetic toolkit

Lemmas converting the C bit operations (`&&&`, `|||`, `>>>`, `<<<`) on the
fields the runtime manipulates into division / modulus arithmetic, so that
`omega` can reason about them. -/

theorem lor_eq_add {n : ℕ} (a b : ℕ) (ha : a % 2 ^ n = 0) (hb : b < 2 ^ n) :
    a ||| b = a + b := by
  induction n generalizing a b with
  | zero => interval_cases b; simp
  | succ n ih =>
    obtain ⟨k, rfl⟩ := Nat.dvd_of_mod_eq_zero ha
    have hhalf : 2 ^ (n + 1) * k = 2 * (2 ^ n * k) := by ring
    rw [hhalf]
    have h2 : (2 * (2 ^ n * k)) / 2 = 2 ^ n * k := by omega
    have h3 : (2 ^ n * k) % 2 ^ n = 0 := Nat.mul_mod_right _ _
    have hb2 : b / 2 < 2 ^ n := by rw [pow_succ] at hb; omega
    have key : (2 * (2 ^ n * k) ||| b) / 2 = 2 ^ n * k + b / 2 := by
      rw [Nat.or_div_two, h2]
      exact ih _ _ h3 hb2
    have hmod : (2 * (2 ^ n * k) ||| b) % 2 = b % 2 := by
      rcases Nat.mod_two_eq_zero_or_one b with h | h
      · rcases Nat.mod_two_eq_zero_or_one (2 * (2 ^ n * k) ||| b) with h' | h'
        · omega
        · rw [Nat.or_mod_two_eq_one] at h'
          omega
      · have h' : (2 * (2 ^ n * k) ||| b) % 2 = 1 := by
          rw [Nat.or_mod_two_eq_one]
          omega
        omega
    have d1 := Nat.div_add_mod (2 * (2 ^ n * k) ||| b) 2
    have d2 := Nat.div_add_mod b 2
    omega

theorem land_two_pow (x i : ℕ) : x &&& 2 ^ i = x / 2 ^ i % 2 * 2 ^ i := by
  rcases Nat.mod_two_eq_zero_or_one (x / 2 ^ i) with h2 | h2 <;>
    rw [Nat.and_two_pow, Nat.testBit_to_div_mod, h2] <;> simp

theorem land_mask (x n : ℕ) : x &&& (2 ^ n - 1) = x % 2 ^ n :=
  Nat.and_pow_two_sub_one_eq_mod x n

theorem land1023 (x : ℕ) : x &&& 1023 = x % 1024 := by
  have := land_mask x 10
  norm_num at this
  exact this

theorem land4095 (x : ℕ) : x &&& 4095 = x % 4096 := by
  have := land_mask x 12
  norm_num at this
  exact this

theorem land255 (x : ℕ) : x &&& 255 = x % 256 := by
  have := land_mask x 8
  norm_num at this
  exact this

theorem land32767 (x : ℕ) : x &&& 32767 = x % 32768 := by
  have := land_mask x 15
  norm_num at this
  exact this

theorem land2147483647 (x : ℕ) : x &&& 2147483647 = x % 2147483648 := by
  have := land_mask x 31
  norm_num at this
  exact this

theorem land4294967295 (x : ℕ) : x &&& 4294967295 = x % 4294967296 := by
  have := land_mask x 32
  norm_num at this
  exact this

theorem land32768 (x : ℕ) : x &&& 32768 = x / 32768 % 2 * 32768 := by
  have := land_two_pow x 15
  norm_num at this
  exact this

theorem land_7C00 (x : ℕ) : x &&& 0x7C00 = x / 2 ^ 10 % 2 ^ 5 * 2 ^ 10 := by
  have h1 : (x &&& 0x7C00) % 2 ^ 10 = 0 := by
    have h0 : x &&& 0x7C00 &&& 0x3FF = 0 := by
      rw [Nat.and_assoc]
      rw [show ((0x7C00 : ℕ) &&& 0x3FF) = 0 from by decide, Nat.and_zero]
    have h := land_mask (x &&& 0x7C00) 10
    norm_num at h h0 ⊢
    omega
  have h2 : x &&& 0x7FFF = (x &&& 0x7C00) ||| (x &&& 0x3FF) := by
    rw [← Nat.and_or_distrib_left]
    rw [show ((0x7C00 : ℕ) ||| 0x3FF) = 0x7FFF from by decide]
  have h3 := land_mask x 15
  have h4 := land_mask x 10
  rw [lor_eq_add (n := 10) _ _ h1 (by norm_num at h4 ⊢; omega)] at h2
  norm_num at h2 h3 h4 ⊢
  omega

theorem land_7F800000 (x : ℕ) : x &&& 0x7F800000 = x / 2 ^ 23 % 2 ^ 8 * 2 ^ 23 := by
  have h1 : (x &&& 0x7F800000) % 2 ^ 23 = 0 := by
    have h0 : x &&& 0x7F800000 &&& 0x7FFFFF = 0 := by
      rw [Nat.and_assoc]
      rw [show ((0x7F800000 : ℕ) &&& 0x7FFFFF) = 0 from by decide, Nat.and_zero]
    have h := land_mask (x &&& 0x7F800000) 23
    norm_num at h h0 ⊢
    omega
  have h2 : x &&& 0x7FFFFFFF = (x &&& 0x7F800000) ||| (x &&& 0x7FFFFF) := by
    rw [← Nat.and_or_distrib_left]
    rw [show ((0x7F800000 : ℕ) ||| 0x7FFFFF) = 0x7FFFFFFF from by decide]
  have h3 := land_mask x 31
  have h4 := land_mask x 23
  rw [lor_eq_add (n := 23) _ _ h1 (by norm_num at h4 ⊢; omega)] at h2
  norm_num at h2 h3 h4 ⊢
  omega

/-! ## Evaluation of the conversions on decomposed bit patterns -/

set_option maxHeartbeats 2000000 in
/-- Evaluates `rf_f16_from_f32` on the input decomposed into sign `s`,
raw exponent field `E` and raw mantissa field `M`. -/
theorem from_f32_eval (s E M : ℕ) (hs : s < 2) (hE : E < 256) (hM : M < 2 ^ 23) :
    rf_f16_from_f32 (s * 2 ^ 31 + E * 2 ^ 23 + M) =
      if E = 0 ∧ M = 0 then s * 2 ^ 15
      else if E ≤ 112 then
        if E < 102 then s * 2 ^ 15
        else s * 2 ^ 15 + (2 ^ 10 + M / 2 ^ 13) / 2 ^ (113 - E)
      else if 143 ≤ E then
        if E = 255 ∧ 0 < M then s * 2 ^ 15 + 0x7E00 + M / 2 ^ 13 / 2 ^ 3
        else s * 2 ^ 15 + 0x7C00
      else
        if M / 2 ^ 12 % 2 = 1 ∧ (M % 2 ^ 12 ≠ 0 ∨ M / 2 ^ 13 % 2 = 1) then
          if M / 2 ^ 13 = 1023 then
            if E = 142 then s * 2 ^ 15 + 0x7C00
            else s * 2 ^ 15 + (E - 111) * 2 ^ 10
          else s * 2 ^ 15 + (E - 112) * 2 ^ 10 + (M / 2 ^ 13 + 1)
        else s * 2 ^ 15 + (E - 112) * 2 ^ 10 + M / 2 ^ 13 := by
  set w := s * 2 ^ 31 + E * 2 ^ 23 + M with hw
  have hsgn : (w >>> 16) &&& 0x8000 = s * 32768 := by
    rw [Nat.shiftRight_eq_div_pow, land32768]
    omega
  have hEf : ((w >>> 23) &&& 0xFF : ℕ) = E := by
    rw [Nat.shiftRight_eq_div_pow, land255]
    omega
  have hmant : (w >>> 13) &&& 0x3FF = M / 2 ^ 13 := by
    rw [Nat.shiftRight_eq_div_pow, land1023]
    omega
  have habs : w &&& 0x7FFFFFFF = E * 2 ^ 23 + M := by
    rw [land2147483647]
    omega
  have hrb : (w >>> 12) &&& 1 = M / 2 ^ 12 % 2 := by
    rw [Nat.shiftRight_eq_div_pow, Nat.and_one_is_mod]
    omega
  have hst : w &&& 0x0FFF = M % 2 ^ 12 := by
    rw [land4095]
    omega
  have hmlt : M / 2 ^ 13 < 1024 := by omega
  simp only [rf_f16_from_f32, hsgn, hEf, hmant, habs, hrb, hst]
  rw [Nat.lor_comm (M / 2 ^ 13) 1024,
    lor_eq_add (n := 10) 1024 (M / 2 ^ 13) (by norm_num) hmlt]
  rw [Nat.shiftRight_eq_div_pow (M / 2 ^ 13) 3,
    Nat.shiftRight_eq_div_pow (1024 + M / 2 ^ 13)]
  have hsh : (1 - ((E : ℤ) - 127 + 15)).toNat = 113 - E := by omega
  have hsh1 : (((E : ℤ) - 127 + 15) + 1).toNat = E - 111 := by omega
  have hsh0 : (((E : ℤ) - 127 + 15)).toNat = E - 112 := by omega
  rw [hsh, hsh1, hsh0, Nat.shiftLeft_eq, Nat.shiftLeft_eq, Nat.and_one_is_mod]
  rw [lor_eq_add (n := 15) (s * 32768) ((1024 + M / 2 ^ 13) / 2 ^ (113 - E))
    (by omega) (by have := Nat.div_le_self (1024 + M / 2 ^ 13) (2 ^ (113 - E)); omega)]
  rw [lor_eq_add (n := 15) (s * 32768) 32256 (by omega) (by norm_num)]
  rw [lor_eq_add (n := 9) (s * 32768 + 32256) (M / 2 ^ 13 / 2 ^ 3) (by omega) (by omega)]
  rw [lor_eq_add (n := 15) (s * 32768) 31744 (by omega) (by norm_num)]
  split_ifs with c1 c2 c3 c4 c5 c6 c7 c8 c9 c10 c11 c12 c13 c14 c15 c16 c17 c18 c19 c20 <;>
    try omega
  next => norm_num
  next =>
    rw [lor_eq_add (n := 15) (s * 32768) ((E - 111) * 2 ^ 10) (by omega) (by omega)]
    omega
  next =>
    rw [lor_eq_add (n := 15) (s * 32768) ((E - 112) * 2 ^ 10) (by omega) (by omega),
      lor_eq_add (n := 10) (s * 32768 + (E - 112) * 2 ^ 10) (M / 2 ^ 13 + 1) (by omega)
        (by omega)]
    omega
  next =>
    rw [lor_eq_add (n := 15) (s * 32768) ((E - 112) * 2 ^ 10) (by omega) (by omega),
      lor_eq_add (n := 10) (s * 32768 + (E - 112) * 2 ^ 10) (M / 2 ^ 13) (by omega)
        (by omega)]
    omega

/-- Evaluates one exit of the normalization loop: if bit 10 of the mantissa is
already set the loop body never runs. -/
theorem normLoop_stop (fuel m : ℕ) (e : ℤ) (h : ¬(m &&& 0x0400 = 0)) :
    f16NormLoop fuel m e = (m, e) := by
  cases fuel <;> simp [f16NormLoop, h]

/-- Characterizes a full run of the normalization loop on a subnormal
mantissa: it shifts left `k` times, where `k` is the unique shift that puts
the leading 1 into bit 10, and decrements the exponent `k` times. -/
theorem normLoop_run (fuel : ℕ) : ∀ (m : ℕ) (e : ℤ), 0 < m → m < 2 ^ 10 →
    2 ^ 10 ≤ m * 2 ^ fuel →
    ∃ k, 1 ≤ k ∧ k ≤ fuel ∧ 2 ^ 10 ≤ m * 2 ^ k ∧ m * 2 ^ k < 2 ^ 11 ∧
      f16NormLoop fuel m e = (m * 2 ^ k, e - k) := by
  induction fuel with
  | zero =>
    intro m e h1 h2 h3
    norm_num at h3
    omega
  | succ fuel ih =>
    intro m e h1 h2 h3
    have hcond : m &&& 0x0400 = 0 := by
      rw [show (0x0400 : ℕ) = 2 ^ 10 from by norm_num, land_two_pow]
      omega
    have hstep : f16NormLoop (fuel + 1) m e = f16NormLoop fuel (m <<< 1) (e - 1) := by
      rw [f16NormLoop, if_pos hcond]
    rw [Nat.shiftLeft_eq] at hstep
    norm_num at hstep
    by_cases hbig : 2 ^ 10 ≤ m * 2
    · have hstop : f16NormLoop fuel (m * 2) (e - 1) = (m * 2, e - 1) := by
        apply normLoop_stop
        rw [show (0x0400 : ℕ) = 2 ^ 10 from by norm_num, land_two_pow]
        omega
      refine ⟨1, by omega, by omega, by omega, by omega, ?_⟩
      rw [hstep, hstop]
      norm_num
    · have heq : m * 2 ^ (fuel + 1) = m * 2 * 2 ^ fuel := by ring
      have h3' : 2 ^ 10 ≤ m * 2 * 2 ^ fuel := by rw [heq] at h3; exact h3
      obtain ⟨k, hk1, hk2, hk3, hk4, hk5⟩ := ih (m * 2) (e - 1) (by omega) (by omega) h3'
      refine ⟨k + 1, by omega, by omega, ?_, ?_, ?_⟩
      · rw [pow_succ]
        calc 2 ^ 10 ≤ m * 2 * 2 ^ k := hk3
        _ = m * (2 ^ k * 2) := by ring
      · rw [pow_succ]
        calc m * (2 ^ k * 2) = m * 2 * 2 ^ k := by ring
        _ < 2 ^ 11 := hk4
      · rw [hstep, hk5]
        simp only [Prod.mk.injEq]
        refine ⟨by ring, by push_cast; ring⟩

/-- Evaluates `rf_f16_to_f32` on a signed zero pattern. -/
theorem to_f32_zero (s : ℕ) (hs : s < 2) :
    rf_f16_to_f32 (s * 2 ^ 15) = s * 2 ^ 31 := by
  have hsgn : (s * 2 ^ 15 &&& 0x8000) <<< 16 = s * 2 ^ 31 := by
    rw [land32768, Nat.shiftLeft_eq]
    omega
  have hexp : ((s * 2 ^ 15 &&& 0x7C00) >>> 10 : ℕ) = 0 := by
    rw [land_7C00, Nat.shiftRight_eq_div_pow]
    omega
  have hm : s * 2 ^ 15 &&& 0x3FF = 0 := by
    rw [land1023]
    omega
  simp only [rf_f16_to_f32, hsgn, hexp, hm]
  norm_num

/-- Evaluates `rf_f16_to_f32` on a normal pattern (exponent field in
`[1, 30]`): rebias by `+112` and widen the mantissa by 13 zero bits. -/
theorem to_f32_normal (s e m : ℕ) (hs : s < 2) (he1 : 1 ≤ e) (he2 : e ≤ 30)
    (hm : m < 2 ^ 10) :
    rf_f16_to_f32 (s * 2 ^ 15 + e * 2 ^ 10 + m) =
      s * 2 ^ 31 + (e + 112) * 2 ^ 23 + m * 2 ^ 13 := by
  set x := s * 2 ^ 15 + e * 2 ^ 10 + m with hx
  have hsgn : (x &&& 0x8000) <<< 16 = s * 2 ^ 31 := by
    rw [land32768, Nat.shiftLeft_eq]
    omega
  have hexp : ((x &&& 0x7C00) >>> 10 : ℕ) = e := by
    rw [land_7C00, Nat.shiftRight_eq_div_pow]
    omega
  have hmant : x &&& 0x3FF = m := by
    rw [land1023]
    omega
  simp only [rf_f16_to_f32, hsgn, hexp, hmant]
  rw [if_neg (by push_cast; omega : ¬((e : ℤ) = 0)),
    if_neg (by push_cast; omega : ¬((e : ℤ) = 31))]
  have ht : (((e : ℤ)) - 15 + 127).toNat = e + 112 := by omega
  rw [ht, Nat.shiftLeft_eq, Nat.shiftLeft_eq]
  rw [lor_eq_add (n := 31) (s * 2 ^ 31) ((e + 112) * 2 ^ 23) (by omega) (by omega)]
  rw [lor_eq_add (n := 23) (s * 2 ^ 31 + (e + 112) * 2 ^ 23) (m * 2 ^ 13)
    (by omega) (by omega)]

/-- Evaluates `rf_f16_to_f32` on a subnormal pattern (exponent field 0,
nonzero mantissa): the loop normalizes by the shift `k`, and the result is a
normal binary32 with exponent field `113 − k`. -/
theorem to_f32_subnormal (s m : ℕ) (hs : s < 2) (hm0 : 0 < m) (hm : m < 2 ^ 10) :
    ∃ k, 1 ≤ k ∧ k ≤ 10 ∧ 2 ^ 10 ≤ m * 2 ^ k ∧ m * 2 ^ k < 2 ^ 11 ∧
      rf_f16_to_f32 (s * 2 ^ 15 + m) =
        s * 2 ^ 31 + (113 - k) * 2 ^ 23 + (m * 2 ^ k - 2 ^ 10) * 2 ^ 13 := by
  set x := s * 2 ^ 15 + m with hx
  have hsgn : (x &&& 0x8000) <<< 16 = s * 2 ^ 31 := by
    rw [land32768, Nat.shiftLeft_eq]
    omega
  have hexp : ((x &&& 0x7C00) >>> 10 : ℕ) = 0 := by
    rw [land_7C00, Nat.shiftRight_eq_div_pow]
    omega
  have hmant : x &&& 0x3FF = m := by
    rw [land1023]
    omega
  obtain ⟨k, hk1, hk2, hk3, hk4, hk5⟩ := normLoop_run 32 m 0 hm0 hm
    (le_trans (by norm_num) (Nat.mul_le_mul_right (2 ^ 32) hm0))
  have hk10 : k ≤ 10 := by
    by_contra hgt
    have h11 : (11 : ℕ) ≤ k := by omega
    have ha : 2 ^ 11 ≤ 2 ^ k := Nat.pow_le_pow_right (by omega) h11
    have hb : 2 ^ 11 ≤ m * 2 ^ k := le_trans ha (Nat.le_mul_of_pos_left _ hm0)
    omega
  refine ⟨k, hk1, hk10, hk3, hk4, ?_⟩
  simp only [rf_f16_to_f32, hsgn, hexp, hmant, Nat.cast_zero]
  rw [if_pos trivial, if_neg (by omega : ¬(m = 0))]
  rw [hk5]
  have hm2 : (m * 2 ^ k) &&& 0x3FF = m * 2 ^ k - 2 ^ 10 := by
    rw [land1023]
    omega
  simp only [hm2]
  have hemod : (((0 : ℤ) - k + 1 - 15 + 127) % (2 ^ 32 : ℤ)).toNat = 113 - k := by
    rw [show ((2 : ℤ) ^ 32) = 4294967296 from by norm_num]
    omega
  rw [hemod, Nat.shiftLeft_eq, Nat.shiftLeft_eq, land4294967295]
  have hlt : (113 - k) * 2 ^ 23 % 4294967296 = (113 - k) * 2 ^ 23 := by
    apply Nat.mod_eq_of_lt
    omega
  rw [hlt]
  rw [lor_eq_add (n := 31) (s * 2 ^ 31) ((113 - k) * 2 ^ 23) (by omega) (by omega)]
  rw [lor_eq_add (n := 23) (s * 2 ^ 31 + (113 - k) * 2 ^ 23)
    ((m * 2 ^ k - 2 ^ 10) * 2 ^ 13) (by omega) (by omega)]

/-! ## Claim theorems -/

/-- C2: for every 16-bit pattern `x` encoding a finite binary16 value
(exponent field ≠ 31), converting it to binary32 and back is the identity on
bit patterns: `rf_f16_from_f32 (rf_f16_to_f32 x) = x`, including signed
zeros and subnormals. -/
theorem C2_roundtrip (x : ℕ) (hx : x < 2 ^ 16) (hfin : x / 2 ^ 10 % 2 ^ 5 ≠ 31) :
    rf_f16_from_f32 (rf_f16_to_f32 x) = x := by
  set s := x / 2 ^ 15 with hs'
  set e := x / 2 ^ 10 % 2 ^ 5 with he'
  set m := x % 2 ^ 10 with hm'
  have hs : s < 2 := by omega
  have he : e < 31 := by omega
  have hm : m < 2 ^ 10 := by omega
  have hx' : x = s * 2 ^ 15 + e * 2 ^ 10 + m := by omega
  rcases Nat.eq_zero_or_pos e with he0 | hepos
  · rcases Nat.eq_zero_or_pos m with hm0 | hmpos
    · have hxz : x = s * 2 ^ 15 := by omega
      rw [hxz, to_f32_zero s hs]
      have h0 := from_f32_eval s 0 0 hs (by omega) (by norm_num)
      rw [if_pos ⟨rfl, rfl⟩, show s * 2 ^ 31 + 0 * 2 ^ 23 + 0 = s * 2 ^ 31 from by ring] at h0
      exact h0
    · have hxs : x = s * 2 ^ 15 + m := by omega
      rw [hxs]
      obtain ⟨k, hk1, hk2, hk3, hk4, hk5⟩ := to_f32_subnormal s m hs hmpos hm
      rw [hk5]
      have hME : (m * 2 ^ k - 2 ^ 10) * 2 ^ 13 < 2 ^ 23 := by omega
      have := from_f32_eval s (113 - k) ((m * 2 ^ k - 2 ^ 10) * 2 ^ 13) hs (by omega) hME
      rw [if_neg (by omega), if_pos (by omega), if_neg (by omega)] at this
      rw [this]
      have hdv : (m * 2 ^ k - 2 ^ 10) * 2 ^ 13 / 2 ^ 13 = m * 2 ^ k - 2 ^ 10 :=
        Nat.mul_div_cancel _ (by norm_num)
      rw [hdv]
      have h1 : 2 ^ 10 + (m * 2 ^ k - 2 ^ 10) = m * 2 ^ k := by omega
      have h2 : 113 - (113 - k) = k := by omega
      rw [h1, h2, Nat.mul_div_cancel m (Nat.pos_pow_of_pos k (by omega))]
  · rw [hx', to_f32_normal s e m hs hepos (by omega) hm]
    have hME : m * 2 ^ 13 < 2 ^ 23 := by omega
    have := from_f32_eval s (e + 112) (m * 2 ^ 13) hs (by omega) hME
    rw [if_neg (by omega), if_neg (by omega), if_neg (by omega)] at this
    rw [if_neg (by
      have hrb : m * 2 ^ 13 / 2 ^ 12 % 2 = 0 := by omega
      omega)] at this
    rw [this]
    have hdv : m * 2 ^ 13 / 2 ^ 13 = m := Nat.mul_div_cancel _ (by norm_num)
    rw [hdv]
    omega

/-- C2 witness at the subnormal pattern `0x0001`. -/
theorem C2_roundtrip_witness :
    (1 : ℕ) < 2 ^ 16 ∧ (1 : ℕ) / 2 ^ 10 % 2 ^ 5 ≠ 31 ∧
      rf_f16_from_f32 (rf_f16_to_f32 1) = 1 :=
  ⟨by norm_num, by norm_num, C2_roundtrip 1 (by norm_num) (by norm_num)⟩

/-- C5: every binary32 input whose rebiased binary16 exponent is at most −10
(raw exponent field `E ≤ 102`) maps to the signed zero matching its sign
bit; no subnormal is produced below that threshold. -/
theorem C5_flush_to_zero (s E M : ℕ) (hs : s < 2) (hE : E < 256) (hM : M < 2 ^ 23)
    (hflush : E ≤ 102) :
    rf_f16_from_f32 (s * 2 ^ 31 + E * 2 ^ 23 + M) = s * 2 ^ 15 := by
  have h := from_f32_eval s E M hs hE hM
  by_cases h0 : E = 0 ∧ M = 0
  · rw [if_pos h0] at h
    exact h
  · rw [if_neg h0, if_pos (by omega)] at h
    by_cases h1 : E < 102
    · rw [if_pos h1] at h
      exact h
    · rw [if_neg h1] at h
      have hE102 : E = 102 := by omega
      have hdv : (2 ^ 10 + M / 2 ^ 13) / 2 ^ (113 - E) = 0 := by
        rw [hE102]
        norm_num
        omega
      rw [hdv] at h
      norm_num at h
      exact h

/-- C5 witness at the largest input in the flush region, `E = 102`,
`M = 2^23 − 1`, negative sign. -/
theorem C5_flush_to_zero_witness :
    (1 : ℕ) < 2 ∧ (102 : ℕ) < 256 ∧ (2 ^ 23 - 1 : ℕ) < 2 ^ 23 ∧ (102 : ℕ) ≤ 102 ∧
      rf_f16_from_f32 (1 * 2 ^ 31 + 102 * 2 ^ 23 + (2 ^ 23 - 1)) = 1 * 2 ^ 15 :=
  ⟨by norm_num, by norm_num, by norm_num, by norm_num,
    C5_flush_to_zero 1 102 (2 ^ 23 - 1) (by norm_num) (by norm_num) (by norm_num)
      (by norm_num)⟩

/-- C6: converting `65504.0f` (pattern `0x477FE000`) yields the maximum
finite binary16 pattern `0x7BFF`, and converting `65520.0f` (pattern
`0x477FF000`) rounds up out of the finite range to `0x7C00` (+∞). -/
theorem C6_overflow_boundary :
    rf_f16_from_f32 0x477FE000 = 0x7BFF ∧ rf_f16_from_f32 0x477FF000 = 0x7C00 := by
  constructor <;> decide

/-- C10: the classification predicates partition the 16-bit patterns:
`isfinite` holds exactly when neither `isnan` nor `isinf` does, and `isnan`
and `isinf` never hold together. -/
theorem C10_classification_partition (x : ℕ) (hx : x < 2 ^ 16) :
    (rf_f16_isfinite x = true ↔ (rf_f16_isnan x = false ∧ rf_f16_isinf x = false)) ∧
      ¬(rf_f16_isnan x = true ∧ rf_f16_isinf x = true) := by
  simp only [rf_f16_isfinite, rf_f16_isnan, rf_f16_isinf, land_7C00, land1023,
    land32767, Bool.and_eq_true, Bool.and_eq_false_iff, decide_eq_true_eq,
    decide_eq_false_iff_not, not_and, ne_eq]
  omega

/-- C10 witness at the infinity pattern `0x7C00`. -/
theorem C10_classification_partition_witness :
    (0x7C00 : ℕ) < 2 ^ 16 ∧
      ((rf_f16_isfinite 0x7C00 = true ↔
        (rf_f16_isnan 0x7C00 = false ∧ rf_f16_isinf 0x7C00 = false)) ∧
      ¬(rf_f16_isnan 0x7C00 = true ∧ rf_f16_isinf 0x7C00 = true)) :=
  ⟨by norm_num, C10_classification_partition 0x7C00 (by norm_num)⟩

/-- C7: with a NaN on either side, every ordered predicate and equality on
binary16 returns false while `ne` returns true; and the two zero patterns
compare equal (`+0 = −0`). -/
theorem C7_nan_comparisons :
    (∀ a b : ℕ, a < 2 ^ 16 → b < 2 ^ 16 →
      (rf_f16_isnan a = true ∨ rf_f16_isnan b = true) →
      rf_f16_lt a b = false ∧ rf_f16_le a b = false ∧ rf_f16_gt a b = false ∧
        rf_f16_ge a b = false ∧ rf_f16_eq a b = false ∧ rf_f16_ne a b = true) ∧
      rf_f16_eq 0x0000 0x8000 = true := by
  constructor
  · intro a b ha hb h
    have hg : (rf_f16_isnan a || rf_f16_isnan b) = true := by
      rcases h with h | h <;> simp [h]
    simp [rf_f16_lt, rf_f16_le, rf_f16_gt, rf_f16_ge, rf_f16_eq, rf_f16_ne, hg]
  · decide

/-- C7 witness: the canonical quiet NaN `0x7E00` against `+0`. -/
theorem C7_nan_comparisons_witness :
    (0x7E00 : ℕ) < 2 ^ 16 ∧ (0 : ℕ) < 2 ^ 16 ∧ rf_f16_isnan 0x7E00 = true ∧
      (rf_f16_lt 0x7E00 0 = false ∧ rf_f16_le 0x7E00 0 = false ∧
        rf_f16_gt 0x7E00 0 = false ∧ rf_f16_ge 0x7E00 0 = false ∧
        rf_f16_eq 0x7E00 0 = false ∧ rf_f16_ne 0x7E00 0 = true) :=
  ⟨by norm_num, by norm_num, by decide,
    C7_nan_comparisons.1 0x7E00 0 (by norm_num) (by norm_num) (Or.inl (by decide))⟩

/-- C9: special-value closure in all four widths: `isnan (nan())`,
`isinf (inf())`, `isinf (neg_inf())` and `signbit (neg_inf())` hold, and
`signbit (inf())` does not.  The decimal constructors and predicates are the
spec-modelled Intel BID operations. -/
theorem C9_special_value_closure :
    (rf_f16_isnan rf_f16_nan = true ∧ rf_f16_isinf rf_f16_inf = true ∧
      rf_f16_isinf rf_f16_neg_inf = true ∧ rf_f16_signbit rf_f16_neg_inf = true ∧
      rf_f16_signbit rf_f16_inf = false) ∧
    (rf_d32_isnan rf_d32_nan = true ∧ rf_d32_isinf rf_d32_inf = true ∧
      rf_d32_isinf rf_d32_neg_inf = true ∧ rf_d32_signbit rf_d32_neg_inf = true ∧
      rf_d32_signbit rf_d32_inf = false) ∧
    (rf_d64_isnan rf_d64_nan = true ∧ rf_d64_isinf rf_d64_inf = true ∧
      rf_d64_isinf rf_d64_neg_inf = true ∧ rf_d64_signbit rf_d64_neg_inf = true ∧
      rf_d64_signbit rf_d64_inf = false) ∧
    (rf_d128_isnan rf_d128_nan = true ∧ rf_d128_isinf rf_d128_inf = true ∧
      rf_d128_isinf rf_d128_neg_inf = true ∧ rf_d128_signbit rf_d128_neg_inf = true ∧
      rf_d128_signbit rf_d128_inf = false) := by
  refine ⟨⟨by decide, by decide, by decide, by decide, by decide⟩,
    ⟨by decide, by decide, by decide, by decide, by decide⟩,
    ⟨by decide, by decide, by decide, by decide, by decide⟩,
    ⟨by decide, by decide, by decide, by decide, by decide⟩⟩

/-- C8: the minNum/maxNum rule in every width exposing min/max: when exactly
one operand is the width's NaN, the non-NaN operand `y` is returned, for
`rf_f16_min`/`rf_f16_max` and the (spec-modelled) `rf_d32`/`rf_d64`/`rf_d128`
min/max. -/
theorem C8_minmax_nan_rule :
    (∀ y : ℕ, y < 2 ^ 16 → rf_f16_isnan y = false →
      rf_f16_min rf_f16_nan y = y ∧ rf_f16_max y rf_f16_nan = y) ∧
    (∀ y : ℕ, y < 2 ^ 32 → rf_d32_isnan y = false →
      rf_d32_min rf_d32_nan y = y ∧ rf_d32_max y rf_d32_nan = y) ∧
    (∀ y : ℕ, y < 2 ^ 64 → rf_d64_isnan y = false →
      rf_d64_min rf_d64_nan y = y ∧ rf_d64_max y rf_d64_nan = y) ∧
    (∀ y : D128, y.low < 2 ^ 64 → y.high < 2 ^ 64 → rf_d128_isnan y = false →
      rf_d128_min rf_d128_nan y = y ∧ rf_d128_max y rf_d128_nan = y) := by
  refine ⟨fun y hy hn => ⟨?_, ?_⟩, fun y hy hn => ⟨?_, ?_⟩,
    fun y hy hn => ⟨?_, ?_⟩, fun y hyl hyh hn => ⟨?_, ?_⟩⟩
  · simp [rf_f16_min, show rf_f16_isnan rf_f16_nan = true from by decide]
  · simp [rf_f16_max, hn, show rf_f16_isnan rf_f16_nan = true from by decide]
  · simp [rf_d32_min, bid32Minnum, show bid32IsNaN rf_d32_nan = true from by decide]
  · simp [rf_d32_max, bid32Maxnum, rf_d32_isnan] at hn ⊢
    simp [hn, show bid32IsNaN rf_d32_nan = true from by decide]
  · simp [rf_d64_min, bid64Minnum, show bid64IsNaN rf_d64_nan = true from by decide]
  · simp [rf_d64_max, bid64Maxnum, rf_d64_isnan] at hn ⊢
    simp [hn, show bid64IsNaN rf_d64_nan = true from by decide]
  · simp [rf_d128_min, bid128Minnum, show bid128IsNaN rf_d128_nan = true from by decide]
  · simp [rf_d128_max, bid128Maxnum, rf_d128_isnan] at hn ⊢
    simp [hn, show bid128IsNaN rf_d128_nan = true from by decide]

/-- C8 witness with `y = 5` in each width (binary16 `5.0` is `0x4500`;
BID `5` is the pattern with coefficient 5 and biased exponent at zero). -/
theorem C8_minmax_nan_rule_witness :
    (rf_f16_min rf_f16_nan 0x4500 = 0x4500 ∧ rf_f16_max 0x4500 rf_f16_nan = 0x4500) ∧
    (rf_d32_min rf_d32_nan 0x32800005 = 0x32800005 ∧
      rf_d32_max 0x32800005 rf_d32_nan = 0x32800005) ∧
    (rf_d64_min rf_d64_nan 0x31C0000000000005 = 0x31C0000000000005 ∧
      rf_d64_max 0x31C0000000000005 rf_d64_nan = 0x31C0000000000005) ∧
    (rf_d128_min rf_d128_nan ⟨5, 0x3040000000000000⟩ = ⟨5, 0x3040000000000000⟩ ∧
      rf_d128_max ⟨5, 0x3040000000000000⟩ rf_d128_nan = ⟨5, 0x3040000000000000⟩) :=
  ⟨C8_minmax_nan_rule.1 0x4500 (by norm_num) (by decide),
   C8_minmax_nan_rule.2.1 0x32800005 (by norm_num) (by decide),
   C8_minmax_nan_rule.2.2.1 0x31C0000000000005 (by norm_num) (by decide),
   C8_minmax_nan_rule.2.2.2 ⟨5, 0x3040000000000000⟩ (by norm_num) (by norm_num)
     (by decide)⟩

/-- C3 is a code bug in the tier C placeholder backend: the placeholder
`d32_div` / `d64_div` / `d128_div` of `math_wrapper.c` perform C unsigned
integer division, which has no defined result for a zero divisor (it traps
on mainstream targets) instead of returning the IEEE signed infinity or
NaN.  The embedding returns `none` exactly at the undefined divisions. -/
theorem C3_tierC_div_by_zero_traps :
    d32DivTierC 1 0 = none ∧ d64DivTierC 1 0 = none ∧
      d128DivTierC ⟨1, 1⟩ ⟨0, 0⟩ = none :=
  ⟨rfl, rfl, rfl⟩

/-- C4 counterexample: tier C `d32_add` on the bit patterns of `1.0f`
(`0x3F800000`) returns `0x7F000000` (value `2^127`), not a pattern denoting
`1.0 + 1.0 = 2.0` as the reinterpret-as-binary-float description requires
(the exact sum 2 is representable, so a correctly rounded float add must
return a pattern of value exactly 2). -/
theorem C4_tierC_not_float_cex :
    d32AddTierC 0x3F800000 0x3F800000 = 0x7F000000 ∧
      valueF32 0x3F800000 + valueF32 0x3F800000 = 2 ∧
      valueF32 (d32AddTierC 0x3F800000 0x3F800000) = 2 ^ 127 := by
  refine ⟨by norm_num [d32AddTierC], ?_, ?_⟩
  · norm_num [valueF32]
  · norm_num [d32AddTierC, valueF32]

/-- C4 amended: tier C decimal arithmetic is unsigned wrap-around integer
arithmetic directly on the bit patterns (not binary floating point); in
particular addition is exactly inverted by subtraction in every width,
which no rounding floating-point addition satisfies on all patterns. -/
theorem C4_tierC_integer_arithmetic :
    (∀ a b : ℕ, a < 2 ^ 32 → b < 2 ^ 32 → d32SubTierC (d32AddTierC a b) b = a) ∧
    (∀ a b : ℕ, a < 2 ^ 64 → b < 2 ^ 64 → d64SubTierC (d64AddTierC a b) b = a) ∧
    (∀ a b : D128, a.low < 2 ^ 64 → a.high < 2 ^ 64 → b.low < 2 ^ 64 →
      b.high < 2 ^ 64 → d128SubTierC (d128AddTierC a b) b = a) := by
  refine ⟨fun a b ha hb => ?_, fun a b ha hb => ?_,
    fun a b hal hah hbl hbh => ?_⟩
  · simp only [d32AddTierC, d32SubTierC]
    omega
  · simp only [d64AddTierC, d64SubTierC]
    omega
  · cases a
    cases b
    simp only [d128AddTierC, d128SubTierC, D128.mk.injEq] at *
    constructor <;> omega

/-- C4 amended-claim witness at `a = 0x3F800000`, `b = 0xFFFFFFFF` (d32)
and the analogous extremes in the wider widths. -/
theorem C4_tierC_integer_arithmetic_witness :
    ((0x3F800000 : ℕ) < 2 ^ 32 ∧ (0xFFFFFFFF : ℕ) < 2 ^ 32 ∧
      d32SubTierC (d32AddTierC 0x3F800000 0xFFFFFFFF) 0xFFFFFFFF = 0x3F800000) ∧
    ((7 : ℕ) < 2 ^ 64 ∧ (2 ^ 64 - 1 : ℕ) < 2 ^ 64 ∧
      d64SubTierC (d64AddTierC 7 (2 ^ 64 - 1)) (2 ^ 64 - 1) = 7) ∧
    d128SubTierC (d128AddTierC ⟨3, 5⟩ ⟨2 ^ 64 - 1, 2 ^ 64 - 1⟩)
      ⟨2 ^ 64 - 1, 2 ^ 64 - 1⟩ = ⟨3, 5⟩ :=
  ⟨⟨by norm_num, by norm_num,
    C4_tierC_integer_arithmetic.1 0x3F800000 0xFFFFFFFF (by norm_num) (by norm_num)⟩,
   ⟨by norm_num, by norm_num,
    C4_tierC_integer_arithmetic.2.1 7 (2 ^ 64 - 1) (by norm_num) (by norm_num)⟩,
   C4_tierC_integer_arithmetic.2.2 ⟨3, 5⟩ ⟨2 ^ 64 - 1, 2 ^ 64 - 1⟩
     (by norm_num) (by norm_num) (by norm_num) (by norm_num)⟩

/-- C1 counterexample: the input `0x33400000` (the binary32 value `3·2⁻²⁶`)
is converted to `0x0000`, but the subnormal pattern `0x0001` (value `2⁻²⁴`)
is strictly nearer: the subnormal path truncates the discarded mantissa
bits instead of rounding to nearest. -/
theorem C1_subnormal_not_nearest_cex :
    rf_f16_from_f32 0x33400000 = 0 ∧
      |valueF32 0x33400000 - valueF16 1| < |valueF32 0x33400000 - valueF16 0| := by
  constructor
  · decide
  · have h32 : valueF32 0x33400000 = 3 * (2 : ℚ) ^ (-26 : ℤ) := by
      norm_num [valueF32]
    have h16a : valueF16 1 = 4 * (2 : ℚ) ^ (-26 : ℤ) := by
      norm_num [valueF16]
    have h16b : valueF16 0 = 0 := by norm_num [valueF16]
    rw [h32, h16a, h16b]
    have hp : (0 : ℚ) < (2 : ℚ) ^ (-26 : ℤ) := by positivity
    rw [show (3 * (2:ℚ) ^ (-26:ℤ) - 4 * (2:ℚ) ^ (-26:ℤ)) = -((2:ℚ) ^ (-26:ℤ)) from by ring,
      show (3 * (2:ℚ) ^ (-26:ℤ) - 0) = 3 * (2:ℚ) ^ (-26:ℤ) from by ring,
      abs_neg, abs_of_pos hp, abs_of_pos (by positivity)]
    nlinarith [hp]

/-- Value of a decomposed normal binary32 pattern. -/
theorem val32_decomp (s E M : ℕ) (hs : s < 2) (hE1 : 1 ≤ E) (hE2 : E ≤ 254)
    (hM : M < 2 ^ 23) :
    valueF32 (s * 2 ^ 31 + E * 2 ^ 23 + M) =
      (if s = 1 then (-1 : ℚ) else 1) * (2 ^ 23 + M) * (2 : ℚ) ^ ((E : ℤ) - 150) := by
  have h1 : (s * 2 ^ 31 + E * 2 ^ 23 + M) / 2 ^ 31 % 2 = s := by omega
  have h2 : (s * 2 ^ 31 + E * 2 ^ 23 + M) / 2 ^ 23 % 2 ^ 8 = E := by omega
  have h3 : (s * 2 ^ 31 + E * 2 ^ 23 + M) % 2 ^ 23 = M := by omega
  simp only [valueF32, h1, h2, h3]
  rw [if_neg (by omega : ¬(E = 0))]

/-- Value of a decomposed finite binary16 pattern, put on the common grid
`2⁻²⁴`: the value is `±J · 2⁻²⁴` with `J = u` for subnormals and
`J = (2¹⁰ + u) · 2^(f−1)` for normals. -/
theorem val16_decomp (t f u : ℕ) (ht : t < 2) (hf : f ≤ 30) (hu : u < 2 ^ 10) :
    valueF16 (t * 2 ^ 15 + f * 2 ^ 10 + u) =
      (if t = 1 then (-1 : ℚ) else 1) *
        (if f = 0 then (u : ℚ) else ((2 ^ 10 + u : ℕ) * 2 ^ (f - 1) : ℕ)) *
        (2 : ℚ) ^ (-24 : ℤ) := by
  have h1 : (t * 2 ^ 15 + f * 2 ^ 10 + u) / 2 ^ 15 % 2 = t := by omega
  have h2 : (t * 2 ^ 15 + f * 2 ^ 10 + u) / 2 ^ 10 % 2 ^ 5 = f := by omega
  have h3 : (t * 2 ^ 15 + f * 2 ^ 10 + u) % 2 ^ 10 = u := by omega
  simp only [valueF16, h1, h2, h3]
  by_cases hf0 : f = 0
  · simp [hf0]
  · rw [if_neg hf0, if_neg hf0]
    have hzp : (2 : ℚ) ^ ((f : ℤ) - 25) = (2 : ℚ) ^ (f - 1 : ℕ) * (2 : ℚ) ^ (-24 : ℤ) := by
      rw [show ((f : ℤ) - 25) = ((f - 1 : ℕ) : ℤ) + (-24 : ℤ) from by
        push_cast [Nat.cast_sub (by omega : 1 ≤ f)]
        ring, zpow_add₀ (by norm_num : (2 : ℚ) ≠ 0), zpow_natCast]
    rw [hzp]
    push_cast
    ring

/-- Round-to-nearest-even core of `rf_f16_from_f32` in the normal range:
there is an integer `n` (the rounded 11-bit significand, `2¹⁰ ≤ n ≤ 2¹¹`)
such that the result is the pattern with significand `n`, and `n · 2¹³` is a
nearest multiple of `2¹³` to `I = 2²³ + M` with ties choosing even `n`. -/
theorem rne_core (s E M : ℕ) (hs : s < 2) (hE1 : 113 ≤ E) (hE2 : E ≤ 142)
    (hM : M < 2 ^ 23) (hov : ¬(E = 142 ∧ 2 ^ 23 - 2 ^ 12 ≤ M)) :
    ∃ n : ℕ, 2 ^ 10 ≤ n ∧ n ≤ 2 ^ 11 ∧ (n = 2 ^ 11 → E ≤ 141) ∧
      rf_f16_from_f32 (s * 2 ^ 31 + E * 2 ^ 23 + M) =
        s * 2 ^ 15 + (E - 112) * 2 ^ 10 + (n - 2 ^ 10) ∧
      (∀ k : ℕ, ((2 ^ 23 + M : ℤ) - n * 2 ^ 13).natAbs ≤
        ((2 ^ 23 + M : ℤ) - k * 2 ^ 13).natAbs) ∧
      (∀ k : ℕ, ((2 ^ 23 + M : ℤ) - k * 2 ^ 13).natAbs =
        ((2 ^ 23 + M : ℤ) - n * 2 ^ 13).natAbs → k ≠ n → n % 2 = 0) ∧
      ((2 ^ 23 + M : ℤ) - n * 2 ^ 13).natAbs ≤ 2 ^ 12 ∧
      ((2 ^ 23 + M : ℤ) - n * 2 ^ 13).natAbs ≤ M ∧
      ((2 ^ 23 + M : ℤ) - n * 2 ^ 13).natAbs ≤ 2 ^ 23 - M := by
  have h := from_f32_eval s E M hs (by omega) hM
  rw [if_neg (by omega), if_neg (by omega), if_neg (by omega)] at h
  by_cases hrc : M / 2 ^ 12 % 2 = 1 ∧ (M % 2 ^ 12 ≠ 0 ∨ M / 2 ^ 13 % 2 = 1)
  · rw [if_pos hrc] at h
    by_cases hcar : M / 2 ^ 13 = 1023
    · rw [if_pos hcar, if_neg (by omega : ¬(E = 142))] at h
      refine ⟨2 ^ 11, by omega, by omega, fun _ => by omega, by rw [h]; omega,
        fun k => by omega, fun k hk hkn => by omega, by omega, by omega, by omega⟩
    · rw [if_neg hcar] at h
      refine ⟨2 ^ 10 + M / 2 ^ 13 + 1, by omega, by omega, fun hc => by omega,
        by rw [h]; omega,
        fun k => by omega, fun k hk hkn => by omega, by omega, by omega, by omega⟩
  · rw [if_neg hrc] at h
    refine ⟨2 ^ 10 + M / 2 ^ 13, by omega, by omega, fun hc => by omega,
      by rw [h]; omega,
      fun k => by omega, fun k hk hkn => by omega, by omega, by omega, by omega⟩

set_option maxHeartbeats 1000000 in
set_option maxRecDepth 8000 in
/-- C1 amended: in the binary16 normal range (raw binary32 exponent field
`E ∈ [113, 142]`, i.e. rebiased exponent 1..30), excluding the inputs that
round up to infinity (`E = 142` with `M ≥ 2²³ − 2¹²`), `rf_f16_from_f32`
returns a finite pattern that is nearest in value to the input among all
finite binary16 patterns, and any tie in distance is resolved to the
pattern whose least-significant mantissa bit is even. -/
theorem C1_normal_range_nearest_even (s E M : ℕ) (hs : s < 2) (hE1 : 113 ≤ E)
    (hE2 : E ≤ 142) (hM : M < 2 ^ 23) (hov : ¬(E = 142 ∧ 2 ^ 23 - 2 ^ 12 ≤ M)) :
    rf_f16_isfinite (rf_f16_from_f32 (s * 2 ^ 31 + E * 2 ^ 23 + M)) = true ∧
    (∀ g : ℕ, g < 2 ^ 16 → rf_f16_isfinite g = true →
      |valueF32 (s * 2 ^ 31 + E * 2 ^ 23 + M) -
          valueF16 (rf_f16_from_f32 (s * 2 ^ 31 + E * 2 ^ 23 + M))| ≤
        |valueF32 (s * 2 ^ 31 + E * 2 ^ 23 + M) - valueF16 g| ∧
      (|valueF32 (s * 2 ^ 31 + E * 2 ^ 23 + M) - valueF16 g| =
          |valueF32 (s * 2 ^ 31 + E * 2 ^ 23 + M) -
            valueF16 (rf_f16_from_f32 (s * 2 ^ 31 + E * 2 ^ 23 + M))| →
        valueF16 g ≠ valueF16 (rf_f16_from_f32 (s * 2 ^ 31 + E * 2 ^ 23 + M)) →
        rf_f16_from_f32 (s * 2 ^ 31 + E * 2 ^ 23 + M) % 2 = 0)) := by
  obtain ⟨n, hn1, hn2, hn3, hr, hnear, htie, hD1, hD2, hD3⟩ :=
    rne_core s E M hs hE1 hE2 hM hov
  set w := s * 2 ^ 31 + E * 2 ^ 23 + M with hw
  set r16 := rf_f16_from_f32 w with hr16
  -- the sign factor and the two positive scale factors
  set sg : ℚ := if s = 1 then (-1 : ℚ) else 1 with hsg
  have hsgabs : |sg| = 1 := by
    rcases (by omega : s = 0 ∨ s = 1) with h | h <;> simp [hsg, h]
  set c24 : ℚ := (2 : ℚ) ^ (-24 : ℤ) with hc24
  have hc24pos : 0 < c24 := by positivity
  set P : ℚ := (2 : ℚ) ^ ((E : ℤ) - 126) with hP
  have hPpos : 0 < P := by positivity
  have hsplit : (2 : ℚ) ^ ((E : ℤ) - 150) = P * c24 := by
    rw [hP, hc24, ← zpow_add₀ (by norm_num : (2 : ℚ) ≠ 0)]
    congr 1
    ring
  have hE113 : ((2 : ℚ) ^ (E - 113 : ℕ)) = 2 ^ 13 * P := by
    have hcE : ((E - 113 : ℕ) : ℤ) = 13 + ((E : ℤ) - 126) := by omega
    rw [← zpow_natCast (2 : ℚ) (E - 113), hcE,
      zpow_add₀ (by norm_num : (2 : ℚ) ≠ 0), hP]
    norm_num
  have hcast : ∀ k : ℕ, ((k * 2 ^ (E - 113) : ℕ) : ℚ) = (k : ℚ) * 2 ^ 13 * P := by
    intro k
    push_cast
    rw [hE113]
    ring
  -- value of the input
  have hx : valueF32 w = sg * ((2 ^ 23 + M : ℚ) * P) * c24 := by
    rw [hw, val32_decomp s E M hs (by omega) (by omega) hM, hsplit]
    push_cast
    ring
  -- value of the returned pattern
  have hval_r : valueF16 r16 = sg * ((n : ℚ) * 2 ^ 13 * P) * c24 := by
    rcases (by omega : n = 2 ^ 11 ∨ n < 2 ^ 11) with hcar | hncar
    · have hE141 : E ≤ 141 := hn3 hcar
      have hrw : s * 2 ^ 15 + (E - 112) * 2 ^ 10 + (n - 2 ^ 10) =
          s * 2 ^ 15 + (E - 111) * 2 ^ 10 + 0 := by omega
      rw [hr, hrw, val16_decomp s (E - 111) 0 hs (by omega) (by norm_num)]
      rw [if_neg (by omega : ¬(E - 111 = 0))]
      have h1 : ((2 ^ 10 + 0 : ℕ) * 2 ^ (E - 111 - 1) : ℕ) = 2 ^ 11 * 2 ^ (E - 113) := by
        have h2 : E - 111 - 1 = (E - 113) + 1 := by omega
        rw [h2]
        ring_nf
      rw [h1, hcast (2 ^ 11), hcar]
    · have hf1 : 1 ≤ E - 112 := by omega
      rw [hr, val16_decomp s (E - 112) (n - 2 ^ 10) hs (by omega) (by omega)]
      rw [if_neg (by omega : ¬(E - 112 = 0))]
      have h1 : ((2 ^ 10 + (n - 2 ^ 10) : ℕ) * 2 ^ (E - 112 - 1) : ℕ) =
          n * 2 ^ (E - 113) := by
        have h2 : 2 ^ 10 + (n - 2 ^ 10) = n := by omega
        have h3 : E - 112 - 1 = E - 113 := by omega
        rw [h2, h3]
      rw [h1, hcast n]
  have habsz : ∀ z : ℤ, |(z : ℚ)| = ((z.natAbs : ℕ) : ℚ) := by
    intro z
    rw [Int.cast_natAbs, Int.cast_abs]
  -- distance of the returned pattern, as the scaled integer distance
  set D : ℕ := ((2 ^ 23 + M : ℤ) - n * 2 ^ 13).natAbs with hD
  have hdr : |valueF32 w - valueF16 r16| = (D : ℚ) * P * c24 := by
    rw [hx, hval_r]
    have h1 : sg * ((2 ^ 23 + M : ℚ) * P) * c24 - sg * ((n : ℚ) * 2 ^ 13 * P) * c24 =
        sg * ((((2 ^ 23 + M : ℤ) - n * 2 ^ 13 : ℤ) : ℚ) * P) * c24 := by
      push_cast
      ring
    rw [h1, abs_mul, abs_mul, abs_mul, hsgabs, abs_of_pos hPpos, abs_of_pos hc24pos,
      habsz, ← hD]
    push_cast
    ring
  -- finiteness of the returned pattern
  have hfin : rf_f16_isfinite r16 = true := by
    rw [rf_f16_isfinite, hr]
    simp only [decide_eq_true_eq, land_7C00]
    rcases (by omega : n = 2 ^ 11 ∨ n < 2 ^ 11) with hcar | hncar
    · have hE141 : E ≤ 141 := hn3 hcar
      omega
    · omega
  refine ⟨hfin, ?_⟩
  intro g hg hgfin
  clear_value w r16 sg c24 P D
  -- decompose the competitor pattern
  have hgf : g / 2 ^ 10 % 2 ^ 5 ≠ 31 := by
    rw [rf_f16_isfinite] at hgfin
    simp only [decide_eq_true_eq, land_7C00] at hgfin
    omega
  set t := g / 2 ^ 15 with ht'
  set f := g / 2 ^ 10 % 2 ^ 5 with hf'
  set u := g % 2 ^ 10 with hu'
  have ht : t < 2 := by omega
  have hf : f ≤ 30 := by omega
  have hu : u < 2 ^ 10 := by omega
  have hgdec : g = t * 2 ^ 15 + f * 2 ^ 10 + u := by omega
  have hgval0 := val16_decomp t f u ht hf hu
  rw [← hgdec] at hgval0
  set tg : ℚ := if t = 1 then (-1 : ℚ) else 1 with htg
  set J : ℕ := if f = 0 then u else (2 ^ 10 + u) * 2 ^ (f - 1) with hJ
  have hgval : valueF16 g = tg * (J : ℚ) * c24 := by
    rw [hgval0, hJ]
    by_cases hf0 : f = 0
    · rw [if_pos hf0, if_pos hf0, hc24]
    · rw [if_neg hf0, if_neg hf0, hc24]
  have hsg2 : sg * sg = 1 := by
    rcases (by omega : s = 0 ∨ s = 1) with h | h <;> simp [hsg, h]
  have htg2 : tg = sg ∨ tg = -sg := by
    rcases (by omega : s = 0 ∨ s = 1) with h | h <;>
      rcases (by omega : t = 0 ∨ t = 1) with h2 | h2 <;> simp [hsg, htg, h, h2]
  clear_value t f u J tg
  -- distance to the competitor in factored form
  have hxg : ∀ ε : ℚ, tg = ε * sg → |valueF32 w - valueF16 g| =
      |(2 ^ 23 + M : ℚ) * P - ε * J| * c24 := by
    intro ε hε
    rw [hx, hgval, hε]
    have h1 : sg * ((2 ^ 23 + M : ℚ) * P) * c24 - ε * sg * J * c24 =
        sg * (((2 ^ 23 + M : ℚ) * P - ε * J) * c24) := by ring
    rw [h1, abs_mul, hsgabs, one_mul, abs_mul, abs_of_pos hc24pos]
  -- the two bracketing grid constants
  have hLJ : ((2 ^ 10 * 2 ^ (E - 113) : ℕ) : ℚ) = 2 ^ 23 * P := by
    rw [hcast (2 ^ 10)]
    norm_num
  have hRJ : ((2 ^ 11 * 2 ^ (E - 113) : ℕ) : ℚ) = 2 ^ 24 * P := by
    rw [hcast (2 ^ 11)]
    norm_num
  have hDM : (D : ℚ) ≤ (M : ℚ) := by exact_mod_cast hD2
  have hD3Q : (D : ℚ) ≤ 2 ^ 23 - (M : ℚ) := by
    have h1 : (D : ℚ) ≤ ((2 ^ 23 - M : ℕ) : ℚ) := by exact_mod_cast hD3
    rw [Nat.cast_sub (by omega : M ≤ 2 ^ 23)] at h1
    push_cast at h1
    exact h1
  -- the heart: either the competitor is strictly farther, or it sits on the
  -- same binade grid and the integer rounding facts apply
  have hkey : (D : ℚ) * P * c24 < |valueF32 w - valueF16 g| ∨
      (∃ k : ℕ, J = k * 2 ^ (E - 113) ∧
        |valueF32 w - valueF16 g| =
          ((((2 ^ 23 + M : ℤ) - k * 2 ^ 13).natAbs : ℕ) : ℚ) * P * c24 ∧
        (k = n → valueF16 g = valueF16 r16)) := by
    rcases htg2 with hε | hε
    · -- same sign: trichotomy on J against the binade [2^23·P, 2^24·P]
      have hxg1 := hxg 1 (by rw [hε]; ring)
      rcases Nat.lt_or_ge J (2 ^ 10 * 2 ^ (E - 113)) with hja | hjge
      · -- below the binade: strictly farther than the left endpoint
        left
        have hJ1 : (J : ℚ) + 1 ≤ 2 ^ 23 * P := by
          rw [← hLJ]
          exact_mod_cast hja
        have hstep : (D : ℚ) * P + 1 ≤ (2 ^ 23 + M : ℚ) * P - 1 * J := by
          have hMP : (D : ℚ) * P ≤ (M : ℚ) * P :=
            mul_le_mul_of_nonneg_right hDM hPpos.le
          nlinarith [hPpos]
        rw [hxg1]
        have hnn : (0 : ℚ) ≤ (2 ^ 23 + M : ℚ) * P - 1 * J := by
          have hD0 : (0 : ℚ) ≤ (D : ℚ) * P := mul_nonneg (Nat.cast_nonneg D) hPpos.le
          linarith
        rw [abs_of_nonneg hnn]
        exact mul_lt_mul_of_pos_right (by linarith) hc24pos
      · rcases Nat.lt_or_ge (2 ^ 11 * 2 ^ (E - 113)) J with hjb | hjle
        · -- above the binade: strictly farther than the right endpoint
          left
          have hJ1 : (2 ^ 24 : ℚ) * P + 1 ≤ (J : ℚ) := by
            rw [← hRJ]
            exact_mod_cast hjb
          have hstep : (D : ℚ) * P + 1 ≤ 1 * J - (2 ^ 23 + M : ℚ) * P := by
            have hMP : (D : ℚ) * P ≤ (2 ^ 23 - (M : ℚ)) * P :=
              mul_le_mul_of_nonneg_right hD3Q hPpos.le
            nlinarith [hPpos]
          rw [hxg1]
          have hnp : (2 ^ 23 + M : ℚ) * P - 1 * J ≤ 0 := by
            have hD0 : (0 : ℚ) ≤ (D : ℚ) * P := mul_nonneg (Nat.cast_nonneg D) hPpos.le
            linarith
          rw [abs_of_nonpos hnp]
          have hgoal : (D : ℚ) * P < -((2 ^ 23 + M : ℚ) * P - 1 * J) := by linarith
          exact mul_lt_mul_of_pos_right hgoal hc24pos
        · -- inside the binade: the value is a grid point k · 2^(E−113)
          right
          have hkex : ∃ k : ℕ, J = k * 2 ^ (E - 113) ∧ 2 ^ 10 ≤ k ∧ k ≤ 2 ^ 11 := by
            have hp1 : (0 : ℕ) < 2 ^ (E - 113) := Nat.pos_pow_of_pos _ (by omega)
            by_cases hf0 : f = 0
            · exfalso
              have hJlt : J < 2 ^ 10 := by rw [hJ, if_pos hf0]; omega
              have hge10 : 2 ^ 10 ≤ 2 ^ 10 * 2 ^ (E - 113) :=
                Nat.le_mul_of_pos_right _ hp1
              omega
            · have hJval : J = (2 ^ 10 + u) * 2 ^ (f - 1) := by rw [hJ, if_neg hf0]
              by_cases h1 : f ≤ E - 113
              · exfalso
                have hE114 : 114 ≤ E := by omega
                have hle : 2 ^ (f - 1) ≤ 2 ^ (E - 114) :=
                  Nat.pow_le_pow_right (by omega) (by omega)
                have hlt : J < 2 ^ 11 * 2 ^ (E - 114) := by
                  rw [hJval]
                  calc (2 ^ 10 + u) * 2 ^ (f - 1) < 2 ^ 11 * 2 ^ (f - 1) :=
                        (Nat.mul_lt_mul_right (Nat.pos_pow_of_pos _ (by omega))).mpr
                          (by omega)
                  _ ≤ 2 ^ 11 * 2 ^ (E - 114) := Nat.mul_le_mul_left _ hle
                have heq : 2 ^ 11 * 2 ^ (E - 114) = 2 ^ 10 * 2 ^ (E - 113) := by
                  rw [show E - 113 = (E - 114) + 1 from by omega, pow_succ]
                  ring
                omega
              · by_cases h2 : f = E - 112
                · refine ⟨2 ^ 10 + u, ?_, by omega, by omega⟩
                  rw [hJval, h2, show E - 112 - 1 = E - 113 from by omega]
                · have hf111 : E - 111 ≤ f := by omega
                  have hge : 2 ^ 10 * 2 ^ (E - 112) ≤ J := by
                    rw [hJval]
                    calc 2 ^ 10 * 2 ^ (E - 112) ≤ 2 ^ 10 * 2 ^ (f - 1) :=
                          Nat.mul_le_mul_left _ (Nat.pow_le_pow_right (by omega) (by omega))
                    _ ≤ (2 ^ 10 + u) * 2 ^ (f - 1) := Nat.mul_le_mul_right _ (by omega)
                  have heq : 2 ^ 10 * 2 ^ (E - 112) = 2 ^ 11 * 2 ^ (E - 113) := by
                    rw [show E - 112 = (E - 113) + 1 from by omega, pow_succ]
                    ring
                  refine ⟨2 ^ 11, by omega, by omega, by omega⟩
          obtain ⟨k, hkJ, hk1, hk2⟩ := hkex
          have hJc : (J : ℚ) = (k : ℚ) * 2 ^ 13 * P := by
            rw [hkJ]
            exact hcast k
          refine ⟨k, hkJ, ?_, ?_⟩
          · rw [hxg 1 (by rw [hε]; ring)]
            have h1 : (2 ^ 23 + M : ℚ) * P - 1 * J =
                (((2 ^ 23 + M : ℤ) - k * 2 ^ 13 : ℤ) : ℚ) * P := by
              rw [hJc]
              push_cast
              ring
            rw [h1, abs_mul, abs_of_pos hPpos, habsz]
          · intro hkn
            rw [hgval, hval_r, hε, hJc, hkn]
    · -- opposite sign: strictly farther than the whole binade
      left
      have hxg1 := hxg (-1) (by rw [hε]; ring)
      rw [hxg1]
      have hnn : (0 : ℚ) ≤ (2 ^ 23 + M : ℚ) * P - (-1) * J := by
        have h1 : (0 : ℚ) ≤ (J : ℚ) := Nat.cast_nonneg J
        nlinarith [hPpos]
      rw [abs_of_nonneg hnn]
      have hDP : (D : ℚ) * P ≤ 2 ^ 12 * P := by
        apply mul_le_mul_of_nonneg_right _ hPpos.le
        exact_mod_cast hD1
      have h1 : (0 : ℚ) ≤ (J : ℚ) := Nat.cast_nonneg J
      have hstep1 : (2 ^ 12 : ℚ) * P < 2 ^ 23 * P := by
        apply mul_lt_mul_of_pos_right _ hPpos
        norm_num
      have hstep2 : (2 ^ 23 : ℚ) * P ≤ (2 ^ 23 + M : ℚ) * P := by
        apply mul_le_mul_of_nonneg_right _ hPpos.le
        have hM0 : (0 : ℚ) ≤ (M : ℚ) := Nat.cast_nonneg M
        linarith
      exact mul_lt_mul_of_pos_right (by linarith) hc24pos
  -- conclude both conjuncts from hkey
  constructor
  · rw [hdr]
    rcases hkey with h | ⟨k, hkJ, hgd, heqv⟩
    · linarith
    · rw [hgd]
      have h1 : (D : ℚ) ≤ ((((2 ^ 23 + M : ℤ) - k * 2 ^ 13).natAbs : ℕ) : ℚ) := by
        exact_mod_cast hnear k
      exact mul_le_mul_of_nonneg_right
        (mul_le_mul_of_nonneg_right h1 hPpos.le) hc24pos.le
  · intro heq hne
    rcases hkey with h | ⟨k, hkJ, hgd, heqv⟩
    · rw [hdr] at heq
      exfalso
      linarith [h, heq]
    · have hkn : k ≠ n := by
        intro hk
        exact hne (heqv hk)
      have hDk : ((2 ^ 23 + M : ℤ) - k * 2 ^ 13).natAbs = D := by
        rw [hgd, hdr] at heq
        have h2 : (((((2 ^ 23 + M : ℤ) - k * 2 ^ 13).natAbs : ℕ) : ℚ)) = (D : ℚ) := by
          have hP24 : (0 : ℚ) < P * c24 := by positivity
          have h3 := heq
          rw [mul_assoc, mul_assoc] at h3
          exact mul_right_cancel₀ (ne_of_gt hP24) h3
        exact_mod_cast h2
      have hn2even := htie k hDk hkn
      rw [hr]
      omega

/-- C1 witness at the concrete input `s = 0`, `E = 113`, `M = 0` (the
binary32 pattern of `2⁻¹⁴`, the smallest binary16 normal). -/
theorem C1_normal_range_nearest_even_witness :
    (0 : ℕ) < 2 ∧ (113 : ℕ) ≤ 113 ∧ (113 : ℕ) ≤ 142 ∧ (0 : ℕ) < 2 ^ 23 ∧
      ¬((113 : ℕ) = 142 ∧ 2 ^ 23 - 2 ^ 12 ≤ 0) ∧
      (rf_f16_isfinite (rf_f16_from_f32 (0 * 2 ^ 31 + 113 * 2 ^ 23 + 0)) = true ∧
      (∀ g : ℕ, g < 2 ^ 16 → rf_f16_isfinite g = true →
        |valueF32 (0 * 2 ^ 31 + 113 * 2 ^ 23 + 0) -
            valueF16 (rf_f16_from_f32 (0 * 2 ^ 31 + 113 * 2 ^ 23 + 0))| ≤
          |valueF32 (0 * 2 ^ 31 + 113 * 2 ^ 23 + 0) - valueF16 g| ∧
        (|valueF32 (0 * 2 ^ 31 + 113 * 2 ^ 23 + 0) - valueF16 g| =
            |valueF32 (0 * 2 ^ 31 + 113 * 2 ^ 23 + 0) -
              valueF16 (rf_f16_from_f32 (0 * 2 ^ 31 + 113 * 2 ^ 23 + 0))| →
          valueF16 g ≠ valueF16 (rf_f16_from_f32 (0 * 2 ^ 31 + 113 * 2 ^ 23 + 0)) →
          rf_f16_from_f32 (0 * 2 ^ 31 + 113 * 2 ^ 23 + 0) % 2 = 0))) :=
  ⟨by norm_num, by norm_num, by norm_num, by norm_num, by norm_num,
    C1_normal_range_nearest_even 0 113 0 (by norm_num) (by norm_num) (by norm_num)
      (by norm_num) (by norm_num)⟩
